import Mathlib

/-!
Verification of the in-memory user directory implemented in
src/src/api/ScalyrBackend.js.

The backend keeps a list of user records (email, accessLevel, state) and
offers getUsers, inviteUsers, resendInvite, revokeAccess and markAsActive.
Every public method runs synchronously against the list and wraps its
result in a promise; the promise wrapper only delays delivery, so we embed
each method as a pure function from the current user list to a result
(success value or the {status, message} rejection object) paired with the
user list after the call.  JavaScript objects are embedded by value: the
in-place mutation `targetUser.state = UserState.ACTIVE` becomes a
functional update of the first record whose email matches, and
`splice(indexOf(targetUser), 1)` becomes removal of that same first match
(indexOf finds the reference returned by the scan, which is the first
record with the given email).
-/

namespace ScalyrBackend

/-- Value of AccessLevel.READ_ONLY in the source. -/
def AccessLevel.READ_ONLY : String := "read-only"

/-- Value of AccessLevel.FULL in the source. -/
def AccessLevel.FULL : String := "full"

/-- Value of AccessLevel.LIMITED in the source. -/
def AccessLevel.LIMITED : String := "limited"

/-- Object.values(AccessLevel), in declaration order. -/
def AccessLevel.values : List String :=
  [AccessLevel.READ_ONLY, AccessLevel.FULL, AccessLevel.LIMITED]

/-- Value of UserState.ACTIVE in the source. -/
def UserState.ACTIVE : String := "active"

/-- Value of UserState.INVITED in the source. -/
def UserState.INVITED : String := "invited"

/-- A user record: the JSON object with fields email, accessLevel, state. -/
structure UserRecord where
  email : String
  accessLevel : String
  state : String
deriving DecidableEq, Repr

/-- Source _createUserRecord: builds a fresh record from the three fields. -/
def createUserRecord (emailAddress accessLevel userState : String) : UserRecord :=
  { email := emailAddress, accessLevel := accessLevel, state := userState }

/-- Source _copyUserRecord: field-by-field copy of a record. -/
def copyUserRecord (source : UserRecord) : UserRecord :=
  { email := source.email, accessLevel := source.accessLevel, state := source.state }

/-- Source _hasValue: Object.values(inputObject).indexOf(value) >= 0,
which is membership of value among the object values. -/
def hasValue (inputObject : List String) (value : String) : Bool :=
  inputObject.contains value

/-- Source _findUser: linear scan returning the first record whose email
matches, or null when there is none. -/
def findUser (userList : List UserRecord) (emailAddress : String) : Option UserRecord :=
  match userList with
  | [] => none
  | r :: rest => if r.email = emailAddress then some r else findUser rest emailAddress

/-- The rejection object built by _returnError: {status, message}. -/
structure ApiError where
  status : String
  message : String
deriving DecidableEq, Repr

/-- Source _returnError (the object the promise is rejected with). -/
def returnError (errorCode message : String) : ApiError :=
  { status := errorCode, message := message }

/-- The object getUsers resolves with: {status, users}. -/
structure GetUsersResult where
  status : String
  users : List UserRecord
deriving DecidableEq, Repr

/-- Source getUsers: pushes a copy of every record, in list order, and
resolves with status success. -/
def getUsers (userList : List UserRecord) : GetUsersResult :=
  { status := "success", users := userList.map copyUserRecord }

/-- The validation loop of inviteUsers: the first email of users that
already has a record, scanning users in order; none when every email is
absent. -/
def findExisting (userList : List UserRecord) (users : List String) : Option String :=
  match users with
  | [] => none
  | u :: rest => if (findUser userList u).isSome then some u else findExisting userList rest

/-- Source inviteUsers: reject with invalidAccess when the access level is
not an AccessLevel value; otherwise reject with userExists at the first
email that already has a record; otherwise push one invited record per
email, in input order, and resolve with success. -/
def inviteUsers (userList : List UserRecord) (users : List String) (accessLevel : String) :
    Except ApiError Unit × List UserRecord :=
  if !hasValue AccessLevel.values accessLevel then
    (Except.error (returnError "invalidAccess"
      ("The specified accessLevel \"" ++ accessLevel ++ "\" is not valid.")), userList)
  else
    match findExisting userList users with
    | some u =>
        (Except.error (returnError "userExists"
          ("The specified user \"" ++ u ++ "\" already exists.")), userList)
    | none =>
        (Except.ok (),
          userList ++ users.map (fun u => createUserRecord u accessLevel UserState.INVITED))

/-- Source resendInvite: reject with userNotExists when the email has no
record, otherwise resolve with success without touching the list. -/
def resendInvite (userList : List UserRecord) (user : String) :
    Except ApiError Unit × List UserRecord :=
  if (findUser userList user).isSome then (Except.ok (), userList)
  else
    (Except.error (returnError "userNotExists"
      ("The specified user \"" ++ user ++ "\" does not exists.")), userList)

/-- The splice in revokeAccess: remove the first record whose email
matches (indexOf locates the record _findUser returned, which is the
first match). -/
def removeUser (userList : List UserRecord) (user : String) : List UserRecord :=
  match userList with
  | [] => []
  | r :: rest => if r.email = user then rest else r :: removeUser rest user

/-- Source revokeAccess: reject with userNotExists when the email has no
record, otherwise splice that record out and resolve with success. -/
def revokeAccess (userList : List UserRecord) (user : String) :
    Except ApiError Unit × List UserRecord :=
  match findUser userList user with
  | none =>
      (Except.error (returnError "userNotExists"
        ("The specified user \"" ++ user ++ "\" does not exists.")), userList)
  | some _ => (Except.ok (), removeUser userList user)

/-- The in-place assignment in markAsActive: set state of the first record
whose email matches to ACTIVE. -/
def setActive (userList : List UserRecord) (user : String) : List UserRecord :=
  match userList with
  | [] => []
  | r :: rest =>
      if r.email = user then { r with state := UserState.ACTIVE } :: rest
      else r :: setActive rest user

/-- Source markAsActive: reject with userNotExists when the email has no
record, otherwise set that record state to active and resolve with
success. -/
def markAsActive (userList : List UserRecord) (user : String) :
    Except ApiError Unit × List UserRecord :=
  match findUser userList user with
  | none =>
      (Except.error (returnError "userNotExists"
        ("The specified user \"" ++ user ++ "\" does not exists.")), userList)
  | some _ => (Except.ok (), setActive userList user)

/-- The seed _userList built by the ScalyrBackend constructor. -/
def initialUserList : List UserRecord :=
  [createUserRecord "czerwin@scalyr.com" AccessLevel.FULL UserState.ACTIVE,
   createUserRecord "asma@scalyr.com" AccessLevel.FULL UserState.ACTIVE,
   createUserRecord "jeff@scalyr.com" AccessLevel.FULL UserState.INVITED,
   createUserRecord "claudia@scalyr.com" AccessLevel.READ_ONLY UserState.ACTIVE,
   createUserRecord "steve@scalyr.com" AccessLevel.LIMITED UserState.INVITED]

/-- A mutating API call with its arguments. -/
inductive Op where
  | invite (users : List String) (accessLevel : String)
  | resend (user : String)
  | revoke (user : String)
  | markActive (user : String)
deriving DecidableEq, Repr

/-- The user list after one API call (a rejected call leaves it unchanged). -/
def applyOp (userList : List UserRecord) : Op → List UserRecord
  | Op.invite users accessLevel => (inviteUsers userList users accessLevel).2
  | Op.resend user => (resendInvite userList user).2
  | Op.revoke user => (revokeAccess userList user).2
  | Op.markActive user => (markAsActive userList user).2

/-- The user list after a sequence of API calls. -/
def runOps (userList : List UserRecord) : List Op → List UserRecord
  | [] => userList
  | op :: rest => runOps (applyOp userList op) rest

/-- Pairwise-distinct emails across the directory. -/
def EmailsNodup (userList : List UserRecord) : Prop :=
  (userList.map (fun r => r.email)).Nodup

instance (userList : List UserRecord) : Decidable (EmailsNodup userList) :=
  inferInstanceAs (Decidable (List.Nodup _))

/-- An invite batch with pairwise-distinct emails; the other calls are
unrestricted. -/
def goodOp : Op → Prop
  | Op.invite users _ => users.Nodup
  | Op.resend _ => True
  | Op.revoke _ => True
  | Op.markActive _ => True

instance : (op : Op) → Decidable (goodOp op)
  | Op.invite users _ => inferInstanceAs (Decidable users.Nodup)
  | Op.resend _ => inferInstanceAs (Decidable True)
  | Op.revoke _ => inferInstanceAs (Decidable True)
  | Op.markActive _ => inferInstanceAs (Decidable True)

/-! ## Helper lemmas -/

theorem copyUserRecord_id (r : UserRecord) : copyUserRecord r = r := rfl

theorem map_copyUserRecord (userList : List UserRecord) :
    userList.map copyUserRecord = userList := by
  induction userList with
  | nil => rfl
  | cons r rest ih => simp [List.map_cons, copyUserRecord_id, ih]

theorem findUser_eq_none (userList : List UserRecord) (u : String) :
    findUser userList u = none ↔ ∀ r ∈ userList, r.email ≠ u := by
  induction userList with
  | nil => simp [findUser]
  | cons a rest ih =>
    by_cases ha : a.email = u
    · simp [findUser, ha]
    · simp [findUser, ha, ih]

theorem findExisting_eq_none (userList : List UserRecord) (users : List String) :
    findExisting userList users = none ↔ ∀ u ∈ users, findUser userList u = none := by
  induction users with
  | nil => simp [findExisting]
  | cons u rest ih =>
    by_cases hu : (findUser userList u).isSome
    · constructor
      · intro h
        simp [findExisting, hu] at h
      · intro hall
        exfalso
        rw [hall u (by simp)] at hu
        simp at hu
    · have hnone : findUser userList u = none := Option.not_isSome_iff_eq_none.1 hu
      simp [findExisting, hu, ih, hnone]

theorem findUser_decomp (userList : List UserRecord) (u : String) (r : UserRecord)
    (h : findUser userList u = some r) :
    ∃ l1 l2, userList = l1 ++ r :: l2 ∧ r.email = u ∧ (∀ x ∈ l1, x.email ≠ u) ∧
      removeUser userList u = l1 ++ l2 ∧
      setActive userList u = l1 ++ { r with state := UserState.ACTIVE } :: l2 := by
  induction userList with
  | nil => simp [findUser] at h
  | cons a rest ih =>
    by_cases ha : a.email = u
    · simp [findUser, ha] at h
      subst h
      exact ⟨[], rest, by simp, ha, by simp, by simp [removeUser, ha],
        by simp [setActive, ha]⟩
    · simp [findUser, ha] at h
      obtain ⟨l1, l2, hl, he, hne, hrem, hset⟩ := ih h
      refine ⟨a :: l1, l2, by simp [hl], he, ?_, by simp [removeUser, ha, hrem],
        by simp [setActive, ha, hset]⟩
      intro x hx
      rcases List.mem_cons.1 hx with hx | hx
      · exact hx ▸ ha
      · exact hne x hx

theorem removeUser_sublist (userList : List UserRecord) (u : String) :
    (removeUser userList u).Sublist userList := by
  induction userList with
  | nil => simp [removeUser]
  | cons a rest ih =>
    by_cases ha : a.email = u
    · rw [show removeUser (a :: rest) u = rest from by simp [removeUser, ha]]
      exact List.sublist_cons_self a rest
    · rw [show removeUser (a :: rest) u = a :: removeUser rest u from by
        simp [removeUser, ha]]
      exact ih.cons₂ a

theorem setActive_map_email (userList : List UserRecord) (u : String) :
    (setActive userList u).map (fun r => r.email) = userList.map (fun r => r.email) := by
  induction userList with
  | nil => rfl
  | cons a rest ih =>
    by_cases ha : a.email = u
    · simp [setActive, ha]
    · simp [setActive, ha, ih]

theorem setActive_mem (userList : List UserRecord) (u : String) (r : UserRecord)
    (h : r ∈ setActive userList u) :
    r ∈ userList ∨ ∃ x ∈ userList, r = { x with state := UserState.ACTIVE } := by
  induction userList with
  | nil => simp [setActive] at h
  | cons a rest ih =>
    by_cases ha : a.email = u
    · simp [setActive, ha] at h
      rcases h with h | h
      · refine Or.inr ⟨a, List.mem_cons_self a rest, ?_⟩
        rw [ha]
        exact h
      · exact Or.inl (List.mem_cons_of_mem a h)
    · simp [setActive, ha] at h
      rcases h with h | h
      · exact Or.inl (h ▸ List.mem_cons_self a rest)
      · rcases ih h with h' | ⟨x, hx, hr⟩
        · exact Or.inl (List.mem_cons_of_mem a h')
        · exact Or.inr ⟨x, List.mem_cons_of_mem a hx, hr⟩

/-! ## Claim theorems -/

/-- Claim C1: when the access level is valid but at least one email of the
batch already has a record, inviteUsers rejects with code userExists and
the user list is left unchanged (all-or-nothing batch). -/
theorem invite_existing_email_fails_atomically
    (userList : List UserRecord) (users : List String) (accessLevel : String)
    (hlvl : hasValue AccessLevel.values accessLevel = true)
    (hex : ∃ u ∈ users, (findUser userList u).isSome) :
    (∃ e, (inviteUsers userList users accessLevel).1 = Except.error e ∧
      e.status = "userExists") ∧
    (inviteUsers userList users accessLevel).2 = userList := by
  have hfe : findExisting userList users ≠ none := by
    intro hall0
    rw [findExisting_eq_none] at hall0
    obtain ⟨u, hu, hsome⟩ := hex
    rw [hall0 u hu] at hsome
    simp at hsome
  cases hcase : findExisting userList users with
  | none => exact absurd hcase hfe
  | some u =>
    constructor
    · exact ⟨returnError "userExists"
        ("The specified user \"" ++ u ++ "\" already exists."),
        by simp [inviteUsers, hlvl, hcase], rfl⟩
    · simp [inviteUsers, hlvl, hcase]

/-- Witness for C1 at a concrete input: inviting jeff@scalyr.com (already
seeded) with a valid access level. -/
theorem invite_existing_email_fails_atomically_witness :
    (hasValue AccessLevel.values "full" = true ∧
      ∃ u ∈ ["jeff@scalyr.com"], (findUser initialUserList u).isSome) ∧
    ((∃ e, (inviteUsers initialUserList ["jeff@scalyr.com"] "full").1 = Except.error e ∧
        e.status = "userExists") ∧
      (inviteUsers initialUserList ["jeff@scalyr.com"] "full").2 = initialUserList) :=
  ⟨⟨by decide, by decide⟩,
    invite_existing_email_fails_atomically initialUserList ["jeff@scalyr.com"] "full"
      (by decide) (by decide)⟩

/-- Claim C2: with a valid access level and a batch of emails none of
which has a record, inviteUsers succeeds and getUsers afterwards returns
status success with exactly the prior records, in their prior order,
followed by one invited record per email in input order with the given
access level. -/
theorem invite_fresh_emails_appends
    (userList : List UserRecord) (users : List String) (accessLevel : String)
    (hlvl : hasValue AccessLevel.values accessLevel = true)
    (habs : ∀ u ∈ users, findUser userList u = none) :
    (inviteUsers userList users accessLevel).1 = Except.ok () ∧
    getUsers (inviteUsers userList users accessLevel).2 =
      { status := "success",
        users := userList ++ users.map (fun u =>
          { email := u, accessLevel := accessLevel, state := UserState.INVITED }) } := by
  have hfe : findExisting userList users = none := (findExisting_eq_none _ _).2 habs
  refine ⟨by simp [inviteUsers, hlvl, hfe], ?_⟩
  simp [inviteUsers, hlvl, hfe, getUsers, map_copyUserRecord, createUserRecord,
    copyUserRecord_id]

/-- Witness for C2 at a concrete input: inviting new@x.com with
read-only access starting from the seed list. -/
theorem invite_fresh_emails_appends_witness :
    (hasValue AccessLevel.values "read-only" = true ∧
      ∀ u ∈ ["new@x.com"], findUser initialUserList u = none) ∧
    ((inviteUsers initialUserList ["new@x.com"] "read-only").1 = Except.ok () ∧
      getUsers (inviteUsers initialUserList ["new@x.com"] "read-only").2 =
        { status := "success",
          users := initialUserList ++ (["new@x.com"] : List String).map (fun u =>
            { email := u, accessLevel := "read-only", state := UserState.INVITED }) }) :=
  ⟨⟨by decide, by decide⟩,
    invite_fresh_emails_appends initialUserList ["new@x.com"] "read-only"
      (by decide) (by decide)⟩

/-- Claim C4: resendInvite, revokeAccess and markAsActive on an email with
no record all reject with code userNotExists and leave the user list
unchanged. -/
theorem missing_email_ops_fail (userList : List UserRecord) (u : String)
    (habs : findUser userList u = none) :
    resendInvite userList u = (Except.error (returnError "userNotExists"
      ("The specified user \"" ++ u ++ "\" does not exists.")), userList) ∧
    revokeAccess userList u = (Except.error (returnError "userNotExists"
      ("The specified user \"" ++ u ++ "\" does not exists.")), userList) ∧
    markAsActive userList u = (Except.error (returnError "userNotExists"
      ("The specified user \"" ++ u ++ "\" does not exists.")), userList) := by
  refine ⟨?_, ?_, ?_⟩ <;> simp [resendInvite, revokeAccess, markAsActive, habs]

/-- Witness for C4 at a concrete input: an email absent from the seed
list. -/
theorem missing_email_ops_fail_witness :
    findUser initialUserList "nobody@x.com" = none ∧
    (resendInvite initialUserList "nobody@x.com" =
        (Except.error (returnError "userNotExists"
          ("The specified user \"" ++ "nobody@x.com" ++ "\" does not exists.")),
          initialUserList) ∧
      revokeAccess initialUserList "nobody@x.com" =
        (Except.error (returnError "userNotExists"
          ("The specified user \"" ++ "nobody@x.com" ++ "\" does not exists.")),
          initialUserList) ∧
      markAsActive initialUserList "nobody@x.com" =
        (Except.error (returnError "userNotExists"
          ("The specified user \"" ++ "nobody@x.com" ++ "\" does not exists.")),
          initialUserList)) :=
  ⟨by decide, missing_email_ops_fail initialUserList "nobody@x.com" (by decide)⟩

/-- Claim C5: revokeAccess on an email that has a record succeeds whatever
the record state is, removes exactly that record (the list splits as
l1 ++ r :: l2 with r the removed record and the result l1 ++ l2), and the
cardinality drops by exactly one. -/
theorem revoke_existing_removes_exactly_one (userList : List UserRecord) (u : String)
    (h : (findUser userList u).isSome) :
    (revokeAccess userList u).1 = Except.ok () ∧
    (∃ l1 r l2, userList = l1 ++ r :: l2 ∧ r.email = u ∧
      (revokeAccess userList u).2 = l1 ++ l2) ∧
    (revokeAccess userList u).2.length + 1 = userList.length := by
  obtain ⟨r, hr⟩ := Option.isSome_iff_exists.1 h
  obtain ⟨l1, l2, hl, he, hne, hrem, hset⟩ := findUser_decomp userList u r hr
  refine ⟨by simp [revokeAccess, hr],
    ⟨l1, r, l2, hl, he, by simp [revokeAccess, hr, hrem]⟩, ?_⟩
  simp only [revokeAccess, hr]
  rw [hrem, hl]
  simp [List.length_append]
  omega

/-- Witness for C5 at a concrete input: revoking the seeded invited user
jeff@scalyr.com. -/
theorem revoke_existing_removes_exactly_one_witness :
    (findUser initialUserList "jeff@scalyr.com").isSome = true ∧
    ((revokeAccess initialUserList "jeff@scalyr.com").1 = Except.ok () ∧
      (∃ l1 r l2, initialUserList = l1 ++ r :: l2 ∧ r.email = "jeff@scalyr.com" ∧
        (revokeAccess initialUserList "jeff@scalyr.com").2 = l1 ++ l2) ∧
      (revokeAccess initialUserList "jeff@scalyr.com").2.length + 1 =
        initialUserList.length) :=
  ⟨by decide,
    revoke_existing_removes_exactly_one initialUserList "jeff@scalyr.com" (by decide)⟩

/-- Claim C6: inviteUsers with an access level outside the three
AccessLevel values rejects with code invalidAccess and leaves the user
list unchanged, whatever the email batch is. -/
theorem invite_invalid_access_fails
    (userList : List UserRecord) (users : List String) (accessLevel : String)
    (hlvl : hasValue AccessLevel.values accessLevel = false) :
    inviteUsers userList users accessLevel =
      (Except.error (returnError "invalidAccess"
        ("The specified accessLevel \"" ++ accessLevel ++ "\" is not valid.")),
        userList) := by
  simp [inviteUsers, hlvl]

/-- Witness for C6 at a concrete input: the string admin is not a valid
access level. -/
theorem invite_invalid_access_fails_witness :
    hasValue AccessLevel.values "admin" = false ∧
    inviteUsers initialUserList ["new@x.com"] "admin" =
      (Except.error (returnError "invalidAccess"
        ("The specified accessLevel \"" ++ "admin" ++ "\" is not valid.")),
        initialUserList) :=
  ⟨by decide, invite_invalid_access_fails initialUserList ["new@x.com"] "admin" (by decide)⟩

/-- Claim C7: getUsers never fails: it always reports status success and
its users field is a record-by-record copy equal in value to the current
list, in insertion order; hence two calls without an intervening mutation
return equal results. -/
theorem getUsers_never_fails (userList : List UserRecord) :
    (getUsers userList).status = "success" ∧
    (getUsers userList).users = userList.map copyUserRecord ∧
    (getUsers userList).users = userList :=
  ⟨rfl, rfl, map_copyUserRecord userList⟩

/-- Claim C8: resendInvite on an email that has a record succeeds and
returns the user list unchanged: no field of any record is mutated. -/
theorem resend_existing_no_mutation (userList : List UserRecord) (u : String)
    (h : (findUser userList u).isSome) :
    resendInvite userList u = (Except.ok (), userList) := by
  simp [resendInvite, h]

/-- Witness for C8 at a concrete input: resending the invite of the
seeded invited user steve@scalyr.com. -/
theorem resend_existing_no_mutation_witness :
    (findUser initialUserList "steve@scalyr.com").isSome = true ∧
    resendInvite initialUserList "steve@scalyr.com" = (Except.ok (), initialUserList) :=
  ⟨by decide, resend_existing_no_mutation initialUserList "steve@scalyr.com" (by decide)⟩

/-- Claim C10: when the access level is invalid and some email of the
batch already has a record, the access-level check runs first: inviteUsers
rejects with code invalidAccess and the user list is unchanged. -/
theorem invite_invalid_access_priority
    (userList : List UserRecord) (users : List String) (accessLevel : String)
    (hlvl : hasValue AccessLevel.values accessLevel = false)
    (hex : ∃ u ∈ users, (findUser userList u).isSome) :
    (∃ e, (inviteUsers userList users accessLevel).1 = Except.error e ∧
      e.status = "invalidAccess") ∧
    (inviteUsers userList users accessLevel).2 = userList := by
  refine ⟨⟨returnError "invalidAccess"
    ("The specified accessLevel \"" ++ accessLevel ++ "\" is not valid."),
    by simp [inviteUsers, hlvl], rfl⟩, by simp [inviteUsers, hlvl]⟩

/-- Witness for C10 at a concrete input: invalid level admin together
with the already-seeded email jeff@scalyr.com. -/
theorem invite_invalid_access_priority_witness :
    (hasValue AccessLevel.values "admin" = false ∧
      ∃ u ∈ ["jeff@scalyr.com"], (findUser initialUserList u).isSome) ∧
    ((∃ e, (inviteUsers initialUserList ["jeff@scalyr.com"] "admin").1 = Except.error e ∧
        e.status = "invalidAccess") ∧
      (inviteUsers initialUserList ["jeff@scalyr.com"] "admin").2 = initialUserList) :=
  ⟨⟨by decide, by decide⟩,
    invite_invalid_access_priority initialUserList ["jeff@scalyr.com"] "admin"
      (by decide) (by decide)⟩

theorem resendInvite_snd (userList : List UserRecord) (u : String) :
    (resendInvite userList u).2 = userList := by
  by_cases h : (findUser userList u).isSome <;> simp [resendInvite, h]

theorem emailsNodup_applyOp (userList : List UserRecord) (op : Op)
    (h : EmailsNodup userList) (hop : goodOp op) :
    EmailsNodup (applyOp userList op) := by
  cases op with
  | invite users lvl =>
    by_cases hlvl : hasValue AccessLevel.values lvl
    · cases hfe : findExisting userList users with
      | some u => simpa [applyOp, inviteUsers, hlvl, hfe] using h
      | none =>
        have habs := (findExisting_eq_none userList users).1 hfe
        have hsnd : applyOp userList (Op.invite users lvl) =
            userList ++ users.map (fun u => createUserRecord u lvl UserState.INVITED) := by
          simp [applyOp, inviteUsers, hlvl, hfe]
        unfold EmailsNodup at h ⊢
        rw [hsnd, List.map_append, List.map_map]
        have hmm :
            ((fun r => r.email) ∘ fun u => createUserRecord u lvl UserState.INVITED) =
              id := by
          funext u
          rfl
        rw [hmm, List.map_id, List.nodup_append]
        refine ⟨h, hop, ?_⟩
        intro a ha1 ha2
        obtain ⟨r, hrmem, hre⟩ := List.mem_map.1 ha1
        exact (findUser_eq_none userList a).1 (habs a ha2) r hrmem hre
    · simpa [applyOp, inviteUsers, hlvl] using h
  | resend u =>
    have hst : applyOp userList (Op.resend u) = userList := resendInvite_snd userList u
    rw [hst]
    exact h
  | revoke u =>
    cases hf : findUser userList u with
    | none => simpa [applyOp, revokeAccess, hf] using h
    | some r =>
      have hsub := (removeUser_sublist userList u).map (fun r => r.email)
      have hnd : EmailsNodup (removeUser userList u) := List.Nodup.sublist hsub h
      simpa [applyOp, revokeAccess, hf] using hnd
  | markActive u =>
    cases hf : findUser userList u with
    | none => simpa [applyOp, markAsActive, hf] using h
    | some r =>
      have hnd : EmailsNodup (setActive userList u) := by
        unfold EmailsNodup
        rw [setActive_map_email]
        exact h
      simpa [applyOp, markAsActive, hf] using hnd

theorem emailsNodup_runOps (ops : List Op) :
    ∀ userList, EmailsNodup userList → (∀ op ∈ ops, goodOp op) →
      EmailsNodup (runOps userList ops) := by
  induction ops with
  | nil =>
    intro userList h _
    simpa [runOps] using h
  | cons op rest ih =>
    intro userList h hops
    simp only [runOps]
    exact ih _ (emailsNodup_applyOp userList op h (hops op (by simp)))
      (fun o ho => hops o (List.mem_cons_of_mem op ho))

/-- Counterexample to claim C3 as stated: inviteUsers validates each email
of the batch only against the current list, never against the rest of the
batch, so inviting the same fresh email twice in one call inserts two
records with that email and breaks uniqueness. -/
theorem email_uniqueness_counterexample :
    ¬ EmailsNodup (runOps initialUserList [Op.invite ["a@x.com", "a@x.com"] "full"]) := by
  decide

/-- Claim C3 (amended): starting from the seed list, after any sequence of
invite, resendInvite, revokeAccess and markAsActive calls in which every
invite batch has pairwise-distinct emails, no two records of the directory
share an email. -/
theorem email_uniqueness_preserved (ops : List Op)
    (hops : ∀ op ∈ ops, goodOp op) :
    EmailsNodup (runOps initialUserList ops) :=
  emailsNodup_runOps ops initialUserList (by decide) hops

/-- Witness for amended C3 at a concrete input: an invite of one fresh
email followed by a mark-active and a revoke. -/
theorem email_uniqueness_preserved_witness :
    (∀ op ∈ [Op.invite ["a@x.com"] "full", Op.markActive "a@x.com",
        Op.revoke "jeff@scalyr.com"], goodOp op) ∧
    EmailsNodup (runOps initialUserList [Op.invite ["a@x.com"] "full",
      Op.markActive "a@x.com", Op.revoke "jeff@scalyr.com"]) :=
  ⟨by decide,
    email_uniqueness_preserved [Op.invite ["a@x.com"] "full", Op.markActive "a@x.com",
      Op.revoke "jeff@scalyr.com"] (by decide)⟩

/-- Claim C9: record states move one way only.  For every user list and
every API call: any record that is invited after the call either already
existed unchanged before it (so was invited before) or was freshly created
by the invite with state invited; and every record after the call either
existed unchanged before it, or is invited, or is a prior record whose
state was set to active.  Hence no call ever turns an existing record from
active to invited, and the only state-changing step sets state to
active. -/
theorem state_transitions_one_way (userList : List UserRecord) (op : Op) :
    (∀ r, r ∈ applyOp userList op → r.state = UserState.INVITED →
      r ∈ userList ∨ ∃ users lvl, op = Op.invite users lvl ∧ r.email ∈ users ∧
        r = createUserRecord r.email lvl UserState.INVITED) ∧
    (∀ r, r ∈ applyOp userList op →
      r ∈ userList ∨ r.state = UserState.INVITED ∨
        ∃ x ∈ userList, r = { x with state := UserState.ACTIVE }) := by
  cases op with
  | invite users lvl =>
    by_cases hlvl : hasValue AccessLevel.values lvl
    · cases hfe : findExisting userList users with
      | some u =>
        have hst : applyOp userList (Op.invite users lvl) = userList := by
          simp [applyOp, inviteUsers, hlvl, hfe]
        rw [hst]
        exact ⟨fun r hr _ => Or.inl hr, fun r hr => Or.inl hr⟩
      | none =>
        have hst : applyOp userList (Op.invite users lvl) =
            userList ++ users.map (fun u => createUserRecord u lvl UserState.INVITED) := by
          simp [applyOp, inviteUsers, hlvl, hfe]
        rw [hst]
        constructor
        · intro r hr _
          rcases List.mem_append.1 hr with hmem | hmem
          · exact Or.inl hmem
          · obtain ⟨u, hu, hru⟩ := List.mem_map.1 hmem
            subst hru
            refine Or.inr ⟨users, lvl, rfl, ?_, rfl⟩
            simpa [createUserRecord] using hu
        · intro r hr
          rcases List.mem_append.1 hr with hmem | hmem
          · exact Or.inl hmem
          · obtain ⟨u, hu, hru⟩ := List.mem_map.1 hmem
            subst hru
            exact Or.inr (Or.inl rfl)
    · have hst : applyOp userList (Op.invite users lvl) = userList := by
        simp [applyOp, inviteUsers, hlvl]
      rw [hst]
      exact ⟨fun r hr _ => Or.inl hr, fun r hr => Or.inl hr⟩
  | resend u =>
    have hst : applyOp userList (Op.resend u) = userList := resendInvite_snd userList u
    rw [hst]
    exact ⟨fun r hr _ => Or.inl hr, fun r hr => Or.inl hr⟩
  | revoke u =>
    cases hf : findUser userList u with
    | none =>
      have hst : applyOp userList (Op.revoke u) = userList := by
        simp [applyOp, revokeAccess, hf]
      rw [hst]
      exact ⟨fun r hr _ => Or.inl hr, fun r hr => Or.inl hr⟩
    | some r0 =>
      have hst : applyOp userList (Op.revoke u) = removeUser userList u := by
        simp [applyOp, revokeAccess, hf]
      rw [hst]
      have hsub := (removeUser_sublist userList u).subset
      exact ⟨fun r hr _ => Or.inl (hsub hr), fun r hr => Or.inl (hsub hr)⟩
  | markActive u =>
    cases hf : findUser userList u with
    | none =>
      have hst : applyOp userList (Op.markActive u) = userList := by
        simp [applyOp, markAsActive, hf]
      rw [hst]
      exact ⟨fun r hr _ => Or.inl hr, fun r hr => Or.inl hr⟩
    | some r0 =>
      have hst : applyOp userList (Op.markActive u) = setActive userList u := by
        simp [applyOp, markAsActive, hf]
      rw [hst]
      constructor
      · intro r hr hinv
        rcases setActive_mem userList u r hr with hmem | ⟨x, hx, hrx⟩
        · exact Or.inl hmem
        · exfalso
          rw [hrx] at hinv
          exact (by decide : UserState.ACTIVE ≠ UserState.INVITED) hinv
      · intro r hr
        rcases setActive_mem userList u r hr with hmem | ⟨x, hx, hrx⟩
        · exact Or.inl hmem
        · exact Or.inr (Or.inr ⟨x, hx, hrx⟩)

/-- Witness for C9 at a concrete input: the step that marks the seeded
invited user jeff@scalyr.com active. -/
theorem state_transitions_one_way_witness :
    (∀ r, r ∈ applyOp initialUserList (Op.markActive "jeff@scalyr.com") →
      r.state = UserState.INVITED →
      r ∈ initialUserList ∨ ∃ users lvl,
        Op.markActive "jeff@scalyr.com" = Op.invite users lvl ∧ r.email ∈ users ∧
        r = createUserRecord r.email lvl UserState.INVITED) ∧
    (∀ r, r ∈ applyOp initialUserList (Op.markActive "jeff@scalyr.com") →
      r ∈ initialUserList ∨ r.state = UserState.INVITED ∨
        ∃ x ∈ initialUserList, r = { x with state := UserState.ACTIVE }) :=
  state_transitions_one_way initialUserList (Op.markActive "jeff@scalyr.com")

end ScalyrBackend
